import Mathlib

/-!
Verification of the acl-api rule reconciliation engine.

This file gives a shallow embedding, in Lean, of the parts of the
tsuru/acl-api Go code base that the verified properties talk about:

* the `acl-operator` reconciliation strategy (`engine/operator/engine.go`,
  `SyncApp`), including its RFC3339 last-updated annotation handling;
* the sync coordinator (`engine/engine.go`: `syncRule`, `engineSync`,
  `syncAllRules`, `SyncRules`);
* the mongodb-backed sync lock store (`storage/mongodb`: `StartSync`,
  `EndSync`) modelled as a pure state transition on an association list,
  with the store's per-key atomicity represented by serializing concurrent
  calls;
* the rule store (`Save`, `FindAll`, `Delete`);
* the pass-scoped resolution cache (`rule/logic.go`: `LogicFromRule`).

Go `time.Time` values are modelled as `Int` seconds since the Unix epoch;
Go durations as `Int` seconds (`time.Minute` is 60).  Fallible calls are
modelled with `Except`/`Option`, and external collaborators (the tsuru
directory, the kubernetes client) as explicit environment parameters
recording their outcomes.
-/

namespace AclApi

/-! ## Time: RFC3339 timestamps

`time.Parse(time.RFC3339, s)` and `t.UTC().Format(time.RFC3339)` from the
Go standard library, restricted to the canonical UTC profile
`YYYY-MM-DDTHH:MM:SSZ` that the engine itself writes.  Conversion between
civil dates and epoch days uses the standard civil-from-days algorithm.
-/

/-- True if the given year is a leap year (proleptic Gregorian). -/
def isLeapYear (y : Int) : Bool :=
  (y % 4 == 0 && y % 100 != 0) || (y % 400 == 0)

/-- Number of days in the given month of the given year. -/
def daysInMonth (y : Int) (m : Nat) : Nat :=
  match m with
  | 1 => 31 | 2 => if isLeapYear y then 29 else 28
  | 3 => 31 | 4 => 30 | 5 => 31 | 6 => 30
  | 7 => 31 | 8 => 31 | 9 => 30 | 10 => 31 | 11 => 30 | 12 => 31
  | _ => 0

/-- Days since the Unix epoch for a civil date (Hinnant's algorithm). -/
def daysFromCivil (y : Int) (m d : Nat) : Int :=
  let y' : Int := if m ≤ 2 then y - 1 else y
  let era : Int := Int.fdiv y' 400
  let yoe : Int := y' - era * 400
  let mp : Int := if m > 2 then (m : Int) - 3 else (m : Int) + 9
  let doy : Int := (153 * mp + 2) / 5 + (d : Int) - 1
  let doe : Int := yoe * 365 + yoe / 4 - yoe / 100 + doy
  era * 146097 + doe - 719468

/-- Civil date from days since the Unix epoch (Hinnant's algorithm). -/
def civilFromDays (z : Int) : Int × Int × Int :=
  let z := z + 719468
  let era : Int := Int.fdiv z 146097
  let doe : Int := z - era * 146097
  let yoe : Int := (doe - doe / 1460 + doe / 36524 - doe / 146096) / 365
  let y : Int := yoe + era * 400
  let doy : Int := doe - (365 * yoe + yoe / 4 - yoe / 100)
  let mp : Int := (5 * doy + 2) / 153
  let d : Int := doy - (153 * mp + 2) / 5 + 1
  let m : Int := if mp < 10 then mp + 3 else mp - 9
  (if m ≤ 2 then y + 1 else y, m, d)

/-- Numeric value of a decimal digit character. -/
def digitVal (c : Char) : Nat := c.toNat - 48

/-- Two-digit decimal field. -/
def twoDigits (a b : Char) : Nat := 10 * digitVal a + digitVal b

/-- `time.Parse(time.RFC3339, s)` for the canonical UTC form
`YYYY-MM-DDTHH:MM:SSZ`, returning seconds since the Unix epoch, or `none`
when the string is not a well-formed timestamp. -/
def parseRFC3339 (s : String) : Option Int :=
  match s.data with
  | [y1, y2, y3, y4, '-', m1, m2, '-', d1, d2, 'T',
     h1, h2, ':', n1, n2, ':', s1, s2, 'Z'] =>
    if [y1, y2, y3, y4, m1, m2, d1, d2, h1, h2, n1, n2, s1, s2].all Char.isDigit then
      let y : Nat := 1000 * digitVal y1 + 100 * digitVal y2 + 10 * digitVal y3 + digitVal y4
      let mo := twoDigits m1 m2
      let d := twoDigits d1 d2
      let h := twoDigits h1 h2
      let mi := twoDigits n1 n2
      let sec := twoDigits s1 s2
      if 1 ≤ mo && mo ≤ 12 && 1 ≤ d && d ≤ daysInMonth y mo &&
          h ≤ 23 && mi ≤ 59 && sec ≤ 59 then
        some (daysFromCivil y mo d * 86400 + h * 3600 + mi * 60 + sec)
      else
        none
    else
      none
  | _ => none

/-- Left-pad the decimal representation of `n` with zeros to width 2. -/
def pad2 (n : Int) : String :=
  if n < 10 then "0" ++ toString n else toString n

/-- Left-pad the decimal representation of `n` with zeros to width 4. -/
def pad4 (n : Int) : String :=
  if n < 10 then "000" ++ toString n
  else if n < 100 then "00" ++ toString n
  else if n < 1000 then "0" ++ toString n
  else toString n

/-- `t.UTC().Format(time.RFC3339)`: the canonical `YYYY-MM-DDTHH:MM:SSZ`
rendering of an epoch-seconds timestamp. -/
def formatRFC3339 (t : Int) : String :=
  let days := Int.fdiv t 86400
  let rem := t - days * 86400
  let h := rem / 3600
  let mi := (rem % 3600) / 60
  let sec := rem % 60
  match civilFromDays days with
  | (y, mo, d) =>
    pad4 y ++ "-" ++ pad2 mo ++ "-" ++ pad2 d ++ "T" ++
      pad2 h ++ ":" ++ pad2 mi ++ ":" ++ pad2 sec ++ "Z"

/-- `time.Minute` in seconds. -/
def minute : Int := 60

/-! ## Annotations

Kubernetes resource annotations as an association list; indexing follows
Go map semantics where a missing key reads as the empty string.
-/

/-- Annotation maps on a target resource (`appCR.Annotations`). -/
abbrev Annotations := List (String × String)

/-- Go map indexing `anns[k]`: the empty string when the key is absent. -/
def getAnn (anns : Annotations) (k : String) : String :=
  match anns.find? (fun p => p.1 == k) with
  | some p => p.2
  | none => ""

/-- Go map assignment `anns[k] = v`. -/
def setAnn (anns : Annotations) (k v : String) : Annotations :=
  match anns with
  | [] => [(k, v)]
  | p :: rest => if p.1 == k then (k, v) :: rest else p :: setAnn rest k v

/-- The `acl-api.tsuru.io/last-updated` annotation key
(`lastUpdatedAnnotation` in `engine/operator/engine.go`). -/
def lastUpdatedKey : String := "acl-api.tsuru.io/last-updated"

/-! ## The acl-operator strategy: `ACLOperatorEngine.SyncApp`

`SyncApp` (engine/operator/engine.go) resolves the rule source through the
logic cache, obtains a kubernetes client, fetches the `App` custom
resource, and then decides from the `last-updated` annotation whether to
patch the resource.  The external calls are modelled by a `SyncAppEnv`
recording each collaborator's outcome; the annotation-decision core and
the patch effect are computed faithfully.

`Sync` returns a Go `interface{}` and an error; we model the pair of
returns as `Except String (Option String)`: `.error e` for a non-nil
error, `.ok none` for `return nil, nil`, and `.ok (some s)` for
`return s, nil` (so `return "", nil` is `.ok (some "")`).
-/

/-- Outcome of the `Get` call for the target resource. -/
inductive GetResource where
  /-- The resource was found; its annotation map. -/
  | found (anns : Annotations)
  /-- `k8sErrors.IsNotFound(err)`. -/
  | notFound
  /-- Any other lookup error. -/
  | err (msg : String)
  deriving DecidableEq

/-- Outcomes of the external collaborators used by `SyncApp` before the
annotation decision is reached. -/
structure SyncAppEnv where
  /-- `e.logicCache.LogicFromRule(r)`: error, or `none` for a nil logic,
  or `some ()` for a resolved handle. -/
  logic : Except String (Option Unit)
  /-- `source.KubernetesRestConfig()`: error, or `none` for a nil config
  (non-kubernetes provisioner), or `some ()` for a usable config. -/
  restConfig : Except String (Option Unit)
  /-- `aclKube.GetTsuruClientWithRestConfig(restConfig)`. -/
  client : Except String Unit
  /-- `tsuruClient.TsuruV1().Apps(namespace).Get(...)`. -/
  getApp : GetResource

deriving instance DecidableEq for Except

/-- Result of a `SyncApp` call: the returned value, whether a `Patch`
request was issued, and the annotations carried by the patched resource
representation. -/
structure SyncAppResult where
  /-- The `(interface{}, error)` pair returned by `SyncApp`. -/
  result : Except String (Option String)
  /-- Whether `Patch` was called on the target resource. -/
  patched : Bool
  /-- The resource annotations after the call (unchanged when no patch
  was issued). -/
  annota : Annotations
  deriving DecidableEq

/-- The message of the error `time.Parse` returns for an unparsable
input. -/
def parseTimeErr (s : String) : String :=
  "parsing time " ++ s ++ " as RFC3339: cannot parse"

/-- The annotation-decision core of `SyncApp` (engine/operator/engine.go
lines 246-297): given the rule's `Created` time, the current time and the
fetched resource's annotations, decide `needsUpdate`, patch when due, and
return the strategy result. -/
def syncAppOnCR (created now : Int) (anns : Annotations) : SyncAppResult :=
  let lastUpdatedStr := getAnn anns lastUpdatedKey
  if lastUpdatedStr == "" then
    -- annotation absent (or empty): needsUpdate = true
    { result := .ok (some "triggered acl-operator")
      patched := true
      annota := setAnn anns lastUpdatedKey (formatRFC3339 now) }
  else
    match parseRFC3339 lastUpdatedStr with
    | none =>
      -- time.Parse failed: return "", err
      { result := .error (parseTimeErr lastUpdatedStr)
        patched := false
        annota := anns }
    | some lastUpdated =>
      -- two separate ifs in the source, both setting needsUpdate = true
      let needsUpdate :=
        (decide (created + minute > lastUpdated)) ||
        (decide (now > lastUpdated + minute))
      if needsUpdate then
        { result := .ok (some "triggered acl-operator")
          patched := true
          annota := setAnn anns lastUpdatedKey (formatRFC3339 now) }
      else
        { result := .ok (some "triggered acl-operator in the last minute")
          patched := false
          annota := anns }

/-- `ACLOperatorEngine.SyncApp`: the full call, threading the modelled
collaborator outcomes before reaching the annotation decision. -/
def syncApp (env : SyncAppEnv) (created now : Int) : SyncAppResult :=
  match env.logic with
  | .error e => { result := .error e, patched := false, annota := [] }
  | .ok none => { result := .ok none, patched := false, annota := [] }
  | .ok (some _) =>
    match env.restConfig with
    | .error e => { result := .error e, patched := false, annota := [] }
    | .ok none => { result := .ok none, patched := false, annota := [] }
    | .ok (some _) =>
      match env.client with
      | .error e => { result := .error e, patched := false, annota := [] }
      | .ok _ =>
        match env.getApp with
        | .notFound => { result := .ok (some ""), patched := false, annota := [] }
        | .err e => { result := .error e, patched := false, annota := [] }
        | .found anns => syncAppOnCR created now anns

/-! ## The sync lock store (`storage/mongodb`, `syncStorage`)

One mongo document per `(ruleid, engine)` key (a unique compound index
enforces the key).  `StartSync` is a single `FindOneAndUpdate` with
upsert: it either updates an *eligible* document (the `$or` query), or —
when the document exists but is ineligible — attempts an insert that hits
the unique index and surfaces `ErrSyncStorageLocked`.  Because the store
serializes those per-key operations, N concurrent callers are modelled as
N sequential applications of the pure transition below.
-/

/-- `types.RuleSyncData`: one recorded sync outcome. -/
structure RuleSyncDataM where
  startTime : Int := 0
  endTime : Int := 0
  successful : Bool := false
  removed : Bool := false
  errMsg : String := ""
  syncResult : String := ""
  deriving DecidableEq

/-- `types.RuleSyncInfo` / the mongo `ruleSyncInfo` document. -/
structure RuleSyncInfoM where
  syncID : String := ""
  ruleID : String := ""
  engine : String := ""
  startTime : Int := 0
  endTime : Int := 0
  pingTime : Int := 0
  running : Bool := false
  syncs : List RuleSyncDataM := []
  deriving DecidableEq

/-- `RuleSyncInfo.LatestSync` (api/types/rule.go): the last recorded
outcome, or `nil` when the history is empty. -/
def RuleSyncInfoM.latestSync (rsi : RuleSyncInfoM) : Option RuleSyncDataM :=
  rsi.syncs.getLast?

/-- The `acl_rule_sync` collection: one document per `(ruleID, engine)`
key (unique index). -/
abbrev SyncStore := List RuleSyncInfoM

/-- `FindOne` on the unique `(ruleid, engine)` index. -/
def findRec (st : SyncStore) (rid eng : String) : Option RuleSyncInfoM :=
  st.find? (fun doc => doc.ruleID == rid && doc.engine == eng)

/-- Replace the document with the given key. -/
def updateRec (st : SyncStore) (rid eng : String) (doc : RuleSyncInfoM) :
    SyncStore :=
  st.map (fun r => if r.ruleID == rid && r.engine == eng then doc else r)

/-- `$slice: -10` push semantics: keep only the last `n` entries. -/
def keepLast (n : Nat) (l : List RuleSyncDataM) : List RuleSyncDataM :=
  l.drop (l.length - n)

/-- The eligibility query of `StartSync`: with `force` the key matches
unconditionally; otherwise the document must be either not running and
last pinged more than `after` ago, or running but last pinged more than
`expireTime` ago (a stale lock). -/
def startSyncEligible (doc : RuleSyncInfoM) (after expireTime now : Int)
    (force : Bool) : Bool :=
  force ||
    (!doc.running && decide (doc.pingTime < now - after)) ||
    (doc.running && decide (doc.pingTime < now - expireTime))

/-- Result of a `StartSync` call: the updated store, the `next` retry
hint, and either the acquired lock record or `ErrSyncStorageLocked`
(modelled as `.error ()`; it is the only error the pure model can
produce). -/
structure StartSyncRes where
  store : SyncStore
  next : Int
  res : Except Unit RuleSyncInfoM
  deriving DecidableEq

/-- `syncStorage.StartSync` (storage/mongodb): atomic
find-eligible-and-lock with upsert.  `lockExp` models the package-level
`lockExpireTime` and `freshID` the `newID()` used by `$setOnInsert`. -/
def startSync (st : SyncStore) (after : Int) (rid eng : String)
    (force : Bool) (now lockExp : Int) (freshID : String) : StartSyncRes :=
  let expireTime := if after > lockExp then after else lockExp
  match findRec st rid eng with
  | some doc =>
    if startSyncEligible doc after expireTime now force then
      let updated := { doc with startTime := now, pingTime := now, running := true }
      { store := updateRec st rid eng updated, next := after, res := .ok updated }
    else
      -- duplicate key on the upsert: ErrSyncStorageLocked; the retry
      -- hint comes from a second FindOne filtered on running = false
      let next :=
        if !doc.running && doc.pingTime != 0 then
          after - (now - doc.pingTime)
        else after
      { store := st, next := next, res := .error () }
  | none =>
    let inserted : RuleSyncInfoM :=
      { syncID := freshID, ruleID := rid, engine := eng,
        startTime := now, pingTime := now, running := true }
    { store := st ++ [inserted], next := after, res := .ok inserted }

/-- `syncStorage.EndSync`: mark the document not running, stamp ping/end
times, and push the outcome with `$slice: -10`.  A missing document makes
the update a no-op (mongo `UpdateOne` matching nothing is not an
error). -/
def endSync (st : SyncStore) (ruleSync : RuleSyncInfoM)
    (syncData : RuleSyncDataM) (now : Int) : SyncStore :=
  match findRec st ruleSync.ruleID ruleSync.engine with
  | none => st
  | some doc =>
    let updated :=
      { doc with
        running := false
        pingTime := now
        endTime := now
        syncs := keepLast 10 (doc.syncs ++ [syncData]) }
    updateRec st ruleSync.ruleID ruleSync.engine updated

/-! ### Operation sequences over the lock store -/

/-- One store operation, for stating store-wide invariants. -/
inductive SyncOp where
  | start (after : Int) (rid eng : String) (force : Bool) (now lockExp : Int)
      (freshID : String)
  | finish (ruleSync : RuleSyncInfoM) (syncData : RuleSyncDataM) (now : Int)

/-- Apply one operation to the store. -/
def applySyncOp (st : SyncStore) (op : SyncOp) : SyncStore :=
  match op with
  | .start after rid eng force now lockExp freshID =>
    (startSync st after rid eng force now lockExp freshID).store
  | .finish ruleSync syncData now => endSync st ruleSync syncData now

/-- Apply a sequence of operations to the store. -/
def runSyncOps (st : SyncStore) (ops : List SyncOp) : SyncStore :=
  ops.foldl applySyncOp st

/-- One full start/end cycle for a key, as in the storage tests: acquire
the lock (when eligible) and immediately record the outcome. -/
def syncCycle (st : SyncStore) (after : Int) (rid eng : String)
    (now lockExp : Int) (freshID : String) (d : RuleSyncDataM) : SyncStore :=
  match startSync st after rid eng false now lockExp freshID with
  | { store := st', res := .ok rs, .. } => endSync st' rs d now
  | { store := st', res := .error _, .. } => st'

/-- Sequential start/end cycles, one per outcome in `ds`. -/
def runCycles (st : SyncStore) (after : Int) (rid eng : String)
    (now lockExp : Int) (freshID : String) (ds : List RuleSyncDataM) :
    SyncStore :=
  ds.foldl (fun st d => syncCycle st after rid eng now lockExp freshID d) st

/-- N serialized `StartSync` attempts for the same key at the same
instant, counting how many acquire the lock and how many observe
`ErrSyncStorageLocked`. -/
def raceStartSync (st : SyncStore) (after : Int) (rid eng : String)
    (now lockExp : Int) (ids : List String) : SyncStore × Nat × Nat :=
  match ids with
  | [] => (st, 0, 0)
  | i :: rest =>
    let r := startSync st after rid eng false now lockExp i
    let (st', ok, locked) := raceStartSync r.store after rid eng now lockExp rest
    match r.res with
    | .ok _ => (st', ok + 1, locked)
    | .error _ => (st', ok, locked + 1)

/-! ## The rule data model (`api/types/rule.go`) -/

/-- `types.TsuruAppRule`. -/
structure TsuruAppRuleM where
  appName : String := ""
  poolName : String := ""
  deriving DecidableEq

/-- `types.TsuruJobRule`. -/
structure TsuruJobRuleM where
  jobName : String := ""
  deriving DecidableEq

/-- `types.KubernetesServiceRule`. -/
structure KubernetesServiceRuleM where
  namespc : String := ""
  serviceName : String := ""
  clusterName : String := ""
  deriving DecidableEq

/-- `types.ProtoPort`. -/
structure ProtoPortM where
  protocol : String := ""
  port : Nat := 0
  deriving DecidableEq

/-- `types.ExternalDNSRule`. -/
structure ExternalDNSRuleM where
  name : String := ""
  ports : List ProtoPortM := []
  syncWholeNetwork : Bool := false
  deriving DecidableEq

/-- `types.ExternalIPRule`. -/
structure ExternalIPRuleM where
  ip : String := ""
  ports : List ProtoPortM := []
  syncWholeNetwork : Bool := false
  deriving DecidableEq

/-- `types.RpaasInstanceRule`. -/
structure RpaasInstanceRuleM where
  serviceName : String := ""
  instanceName : String := ""
  deriving DecidableEq

/-- `types.RuleType`: a tagged variant, at most one pointer populated. -/
structure RuleTypeM where
  tsuruApp : Option TsuruAppRuleM := none
  tsuruJob : Option TsuruJobRuleM := none
  kubernetesService : Option KubernetesServiceRuleM := none
  externalDNS : Option ExternalDNSRuleM := none
  externalIP : Option ExternalIPRuleM := none
  rpaasInstance : Option RpaasInstanceRuleM := none
  deriving DecidableEq

/-- `types.Rule`. -/
structure RuleM where
  ruleID : String := ""
  ruleName : String := ""
  source : RuleTypeM := {}
  destination : RuleTypeM := {}
  removed : Bool := false
  metadata : List (String × String) := []
  created : Int := 0
  creator : String := ""
  deriving DecidableEq

/-! ### `RuleType.CacheKey`: stable JSON serialization

`CacheKey` is `json.Marshal` of the `RuleType` struct, whose six pointer
fields carry `omitempty` JSON tags (nested structs are encoded with their
field names; a nil slice/empty list of ports is encoded as a list here,
which only affects which concrete string a key is — not key equality).
-/

/-- An opening brace as a string. -/
def jLB : String := String.singleton (Char.ofNat 123)

/-- A closing brace as a string. -/
def jRB : String := String.singleton (Char.ofNat 125)

/-- JSON string escaping for quotes and backslashes. -/
def jsonEscape (s : String) : String :=
  s.data.foldl
    (fun acc c =>
      if c == '"' then acc ++ "\\\""
      else if c == '\\' then acc ++ "\\\\"
      else acc.push c) ""

/-- A JSON string literal. -/
def jStr (s : String) : String := "\"" ++ jsonEscape s ++ "\""

/-- A JSON object member. -/
def jField (name v : String) : String := jStr name ++ ":" ++ v

/-- A JSON object from its members. -/
def jObj (fields : List String) : String :=
  jLB ++ String.intercalate "," fields ++ jRB

/-- A JSON boolean. -/
def jBool (b : Bool) : String := if b then "true" else "false"

/-- JSON encoding of a `ProtoPort`. -/
def protoPortJson (p : ProtoPortM) : String :=
  jObj [jField "Protocol" (jStr p.protocol), jField "Port" (toString p.port)]

/-- JSON encoding of a port list. -/
def portsJson (ps : List ProtoPortM) : String :=
  "[" ++ String.intercalate "," (ps.map protoPortJson) ++ "]"

/-- `RuleType.CacheKey` (api/types/rule.go): `json.Marshal` of the tagged
variant, omitting nil members. -/
def cacheKey (rt : RuleTypeM) : String :=
  let fields :=
    (match rt.tsuruApp with
     | some a => [jField "TsuruApp"
         (jObj [jField "AppName" (jStr a.appName),
                jField "PoolName" (jStr a.poolName)])]
     | none => []) ++
    (match rt.tsuruJob with
     | some j => [jField "TsuruJob" (jObj [jField "JobName" (jStr j.jobName)])]
     | none => []) ++
    (match rt.kubernetesService with
     | some k => [jField "KubernetesService"
         (jObj [jField "Namespace" (jStr k.namespc),
                jField "ServiceName" (jStr k.serviceName),
                jField "ClusterName" (jStr k.clusterName)])]
     | none => []) ++
    (match rt.externalDNS with
     | some d => [jField "ExternalDNS"
         (jObj [jField "Name" (jStr d.name),
                jField "Ports" (portsJson d.ports),
                jField "SyncWholeNetwork" (jBool d.syncWholeNetwork)])]
     | none => []) ++
    (match rt.externalIP with
     | some i => [jField "ExternalIP"
         (jObj [jField "IP" (jStr i.ip),
                jField "Ports" (portsJson i.ports),
                jField "SyncWholeNetwork" (jBool i.syncWholeNetwork)])]
     | none => []) ++
    (match rt.rpaasInstance with
     | some rp => [jField "RpaasInstance"
         (jObj [jField "ServiceName" (jStr rp.serviceName),
                jField "Instance" (jStr rp.instanceName)])]
     | none => [])
  jObj fields

/-! ## The resolution cache (`rule/logic.go`, `logicCache`)

A process-pass cache mapping a rule source's `CacheKey` to the resolved
logic handle (or `nil`).  All calls go through one mutex, so a sequence
of `LogicFromRule` calls is modelled as sequential cache-threading; the
`resolverInvoked` flag records whether `logicFromRuleType` ran.
-/

/-- The handle produced by `logicFromRuleType` for a tsuru-app source
(`tsuruAppRuleLogic`; its tsuru client is environment, not data). -/
structure LogicM where
  rule : TsuruAppRuleM
  deriving DecidableEq

/-- `logicCache.logicFromRuleType`: only tsuru-app sources resolve to a
logic; every other kind yields `nil`. -/
def logicFromRuleType (rt : RuleTypeM) : Option LogicM :=
  match rt.tsuruApp with
  | some a => some ⟨a⟩
  | none => none

/-- The cache map `map[string]RuleLogic`; stored values may be `none`
(a resolved nil) and are still cache hits. -/
abbrev LogicCacheM := List (String × Option LogicM)

/-- Result of one `LogicFromRule` call: the returned logic, the cache
afterwards, and whether the resolver ran.  (`CacheKey` is a marshal of a
plain struct and cannot fail, so no error outcome is modelled.) -/
structure LFRResult where
  logic : Option LogicM
  cache : LogicCacheM
  resolverInvoked : Bool
  deriving DecidableEq

/-- `logicCache.LogicFromRule`: look the source key up; on a miss resolve
once and store the result, nil included. -/
def logicFromRule (cache : LogicCacheM) (r : RuleM) : LFRResult :=
  let srcKey := cacheKey r.source
  match cache.find? (fun p => p.1 == srcKey) with
  | some p => { logic := p.2, cache := cache, resolverInvoked := false }
  | none =>
    let srcLogic := logicFromRuleType r.source
    { logic := srcLogic, cache := (srcKey, srcLogic) :: cache,
      resolverInvoked := true }

/-- Number of resolver invocations attributable to key `k` over a
sequence of `LogicFromRule` calls threading the shared cache. -/
def invocationsForKey (cache : LogicCacheM) (rs : List RuleM) (k : String) :
    Nat :=
  match rs with
  | [] => 0
  | r :: rest =>
    let res := logicFromRule cache r
    (if res.resolverInvoked && cacheKey r.source == k then 1 else 0) +
      invocationsForKey res.cache rest k

/-! ## The sync coordinator (`engine/engine.go`)

`syncRule` runs one rule through one engine: admission filter, lock
acquisition, the removal-already-synced skip, the engine's `Sync`, and
the deferred `SyncEnd` outcome recording.  The collaborators' behaviours
are passed in as outcomes; the function reproduces the control flow.
-/

/-- Outcome of `ruleSvc.SyncStart` as seen by `syncRule`. -/
inductive StartOutcome where
  /-- `storage.ErrSyncStorageLocked`. -/
  | locked
  /-- Any other error. -/
  | err (msg : String)
  /-- The acquired lock record. -/
  | acquired (rs : RuleSyncInfoM)
  deriving DecidableEq

/-- What one `syncRule` call did: the error it returned, whether the
engine's `Sync` ran, and the outcome passed to `SyncEnd` (none when the
lock was never acquired, so nothing was persisted). -/
structure SyncRuleOutcome where
  retErr : Option String
  syncCalled : Bool
  recorded : Option RuleSyncDataM
  deriving DecidableEq

/-- `syncRule` (engine/engine.go): filter, lock, removal-skip, engine
sync, deferred outcome recording.  `hasFilter`/`allowedRes` model the
optional `EngineWithFilter`, `startRes` the lock attempt, and `syncRes`
the engine's `Sync` call. -/
def syncRule (hasFilter : Bool) (allowedRes : Except String Bool)
    (startRes : StartOutcome) (syncRes : Except String (Option String))
    (r : RuleM) (now : Int) : SyncRuleOutcome :=
  let afterFilter : SyncRuleOutcome :=
    match startRes with
    | .locked =>
      -- err == storage.ErrSyncStorageLocked: return nil
      { retErr := none, syncCalled := false, recorded := none }
    | .err e => { retErr := some e, syncCalled := false, recorded := none }
    | .acquired rs =>
      let skipRemoved :=
        match rs.latestSync with
        | some ls => r.removed && ls.removed && ls.successful
        | none => false
      if skipRemoved then
        -- nothing to do, removal already synced; the deferred SyncEnd
        -- still records a successful outcome
        { retErr := none, syncCalled := false,
          recorded := some { startTime := now, endTime := now,
                             successful := true, removed := r.removed } }
      else
        match syncRes with
        | .ok obj =>
          let res := match obj with
            | some s => jStr s  -- json.Marshal of the result object
            | none => ""
          { retErr := none, syncCalled := true,
            recorded := some { startTime := now, endTime := now,
                               successful := true, removed := r.removed,
                               syncResult := res } }
        | .error e =>
          { retErr := some e, syncCalled := true,
            recorded := some { startTime := now, endTime := now,
                               successful := false, removed := r.removed,
                               errMsg := e } }
  if hasFilter then
    match allowedRes with
    | .error e => { retErr := some e, syncCalled := false, recorded := none }
    | .ok false =>
      -- rule not allowed in current worker: return nil
      { retErr := none, syncCalled := false, recorded := none }
    | .ok true => afterFilter
  else afterFilter

/-- An engine's behaviour as seen by `engineSync`. -/
structure EngineModel where
  hasFilter : Bool
  allowedRes : RuleM → Except String Bool
  syncRes : RuleM → Except String (Option String)

/-- `engineSync` (engine/engine.go): process the batch sequentially,
counting `ruleSyncFailuresTotal` increments (one per rule whose
`syncRule` returned an error). -/
def engineSync (eng : EngineModel) (startRes : RuleM → StartOutcome)
    (rules : List RuleM) (now : Int) : Nat × List SyncRuleOutcome :=
  rules.foldl
    (fun acc r =>
      let o := syncRule eng.hasFilter (eng.allowedRes r) (startRes r)
        (eng.syncRes r) r now
      (acc.1 + (if o.retErr.isSome then 1 else 0), acc.2 ++ [o]))
    (0, [])

/-! ## The rule store (`storage/mongodb`, `ruleStorage`) -/

/-- `storage.FindOpts`. -/
structure FindOpts where
  metadata : List (String × String) := []
  creator : String := ""
  sourceTsuruApp : String := ""
  sourceTsuruJob : String := ""

/-- The mongo query built by `ruleStorage.FindAll`: metadata pairs,
creator, and source app/job name, each added only when non-empty.  No
condition on `removed` is ever added. -/
def matchesFindOpts (opts : FindOpts) (r : RuleM) : Bool :=
  opts.metadata.all
    (fun kv => (r.metadata.find? (fun p => p.1 == kv.1)).map Prod.snd == some kv.2) &&
  (opts.creator == "" || r.creator == opts.creator) &&
  (opts.sourceTsuruApp == "" ||
    (match r.source.tsuruApp with
     | some a => a.appName == opts.sourceTsuruApp
     | none => false)) &&
  (opts.sourceTsuruJob == "" ||
    (match r.source.tsuruJob with
     | some j => j.jobName == opts.sourceTsuruJob
     | none => false))

/-- `ruleStorage.FindAll`: every document matching the query.  (The
source additionally sorts by `_id`; ordering is irrelevant to the
properties proved here and the batch is modelled in store order.) -/
def findAllRules (db : List RuleM) (opts : FindOpts) : List RuleM :=
  db.filter (matchesFindOpts opts)

/-- `ruleServiceImpl.FindAll`: `stor.FindAll(storage.FindOpts{})`. -/
def findAllForEngine (db : List RuleM) : List RuleM :=
  findAllRules db {}

/-- The batch `syncAllRules` (engine/engine.go) hands to `SyncRules` on
every periodic tick: exactly `ruleSvc.FindAll()`. -/
def syncAllRulesBatch (db : List RuleM) : List RuleM :=
  findAllForEngine db

/-- The per-rule stamping in `ruleStorage.Save`: assign a fresh id when
empty, and unconditionally overwrite `Created` with the save time. -/
def stampRule (now : Int) (freshID : String) (r : RuleM) : RuleM :=
  let r := if r.ruleID == "" then { r with ruleID := freshID } else r
  { r with created := now }

/-- Stamp a batch, consuming one fresh id per rule. -/
def stampRules (now : Int) (ids : List String) (rules : List RuleM) :
    List RuleM :=
  match rules, ids with
  | [], _ => []
  | r :: rs, [] => stampRule now "" r :: stampRules now [] rs
  | r :: rs, i :: is => stampRule now i r :: stampRules now is rs

/-- `InsertMany` under the unique `_id` index: fails with
`ErrInstanceAlreadyExists` when an id is already present. -/
def insertMany (db rs : List RuleM) : Except Unit (List RuleM) :=
  match rs with
  | [] => .ok db
  | r :: rest =>
    if db.any (fun d => d.ruleID == r.ruleID) then .error ()
    else insertMany (db ++ [r]) rest

/-- `ReplaceOne` with upsert on `_id`: replace the matching document or
insert the rule when absent. -/
def replaceOneUpsert (db : List RuleM) (r : RuleM) : List RuleM :=
  match db with
  | [] => [r]
  | d :: ds => if d.ruleID == r.ruleID then r :: ds else d :: replaceOneUpsert ds r

/-- `ruleStorage.Save` (storage/mongodb): stamp every rule with the
current time, then insert (failing on duplicates) or upsert-replace.
Returns the new store contents and the stamped rules (the caller's
slice, mutated in place in the source). -/
def saveRules (db rules : List RuleM) (upsert : Bool) (now : Int)
    (ids : List String) : Except Unit (List RuleM × List RuleM) :=
  let stamped := stampRules now ids rules
  if !upsert then
    (insertMany db stamped).map (fun db' => (db', stamped))
  else
    .ok (stamped.foldl replaceOneUpsert db, stamped)

/-- `FindOne` on the rule store's `_id` index. -/
def findRuleByID (db : List RuleM) (id : String) : Option RuleM :=
  db.find? (fun d => d.ruleID == id)

/-! # Verified properties -/

/-! ## The annotation decision of `SyncApp` -/

/-- When every collaborator call preceding the annotation decision
succeeds, `SyncApp` is the annotation core applied to the fetched
resource. -/
lemma syncApp_eq_core (env : SyncAppEnv) (created now : Int)
    (anns : Annotations)
    (hlogic : env.logic = .ok (some ()))
    (hrest : env.restConfig = .ok (some ()))
    (hclient : env.client = .ok ())
    (hget : env.getApp = .found anns) :
    syncApp env created now = syncAppOnCR created now anns := by
  unfold syncApp
  rw [hlogic, hrest, hclient, hget]

/-- Claim C4: for every rule whose `Created` plus one minute is not after
the target's stored annotation timestamp, and whose stored annotation
timestamp is less than one minute before the current time, `Sync`
returns the no-op result "triggered acl-operator in the last minute" and
performs no annotation write. -/
theorem syncApp_noop_within_cooldown (env : SyncAppEnv)
    (created now last : Int) (anns : Annotations) (s : String)
    (hlogic : env.logic = .ok (some ()))
    (hrest : env.restConfig = .ok (some ()))
    (hclient : env.client = .ok ())
    (hget : env.getApp = .found anns)
    (hs : getAnn anns lastUpdatedKey = s)
    (hparse : parseRFC3339 s = some last)
    (hgrace : ¬ created + minute > last)
    (hfresh : now - last < minute) :
    syncApp env created now =
      { result := .ok (some "triggered acl-operator in the last minute"),
        patched := false, annota := anns } := by
  rw [syncApp_eq_core env created now anns hlogic hrest hclient hget]
  have hne : s ≠ "" := by
    intro h
    rw [h] at hparse
    simp [parseRFC3339] at hparse
  unfold syncAppOnCR
  rw [hs]
  rw [if_neg (by simpa using hne)]
  rw [hparse]
  have h1 : decide (created + minute > last) = false := by
    simp only [decide_eq_false_iff_not]
    omega
  have h2 : decide (now > last + minute) = false := by
    simp only [decide_eq_false_iff_not]
    unfold minute at hfresh ⊢
    omega
  simp only [h1, h2]
  simp

/-- Witness for `syncApp_noop_within_cooldown`: a target annotated one
minute into the epoch, a rule created at the epoch, observed forty
seconds later. -/
theorem syncApp_noop_within_cooldown_witness :
    syncApp
      { logic := .ok (some ()), restConfig := .ok (some ()),
        client := .ok (),
        getApp := .found [(lastUpdatedKey, "1970-01-01T00:01:00Z")] }
      0 100 =
      { result := .ok (some "triggered acl-operator in the last minute"),
        patched := false,
        annota := [(lastUpdatedKey, "1970-01-01T00:01:00Z")] } :=
  syncApp_noop_within_cooldown _ 0 100 60
    [(lastUpdatedKey, "1970-01-01T00:01:00Z")] "1970-01-01T00:01:00Z"
    rfl rfl rfl rfl (by decide) (by decide) (by decide) (by decide)

/-- Claim C5: for every rule whose `Created` timestamp plus one minute is
after the target's stored annotation timestamp, `Sync` decides
`needsUpdate = true`, writes the annotation to the current UTC time in
RFC3339 form, and returns "triggered acl-operator". -/
theorem syncApp_grace_window_override (env : SyncAppEnv)
    (created now last : Int) (anns : Annotations) (s : String)
    (hlogic : env.logic = .ok (some ()))
    (hrest : env.restConfig = .ok (some ()))
    (hclient : env.client = .ok ())
    (hget : env.getApp = .found anns)
    (hs : getAnn anns lastUpdatedKey = s)
    (hparse : parseRFC3339 s = some last)
    (hgrace : created + minute > last) :
    syncApp env created now =
      { result := .ok (some "triggered acl-operator"),
        patched := true,
        annota := setAnn anns lastUpdatedKey (formatRFC3339 now) } := by
  rw [syncApp_eq_core env created now anns hlogic hrest hclient hget]
  have hne : s ≠ "" := by
    intro h
    rw [h] at hparse
    simp [parseRFC3339] at hparse
  unfold syncAppOnCR
  rw [hs]
  rw [if_neg (by simpa using hne)]
  rw [hparse]
  have h1 : decide (created + minute > last) = true := by
    simpa using hgrace
  simp only [h1]
  simp

/-- Witness for `syncApp_grace_window_override`: a rule created at second
100, observed at second 110, against a target annotated at one minute
into the epoch (grace window still open, cooldown not yet elapsed). -/
theorem syncApp_grace_window_override_witness :
    syncApp
      { logic := .ok (some ()), restConfig := .ok (some ()),
        client := .ok (),
        getApp := .found [(lastUpdatedKey, "1970-01-01T00:01:00Z")] }
      100 110 =
      { result := .ok (some "triggered acl-operator"),
        patched := true,
        annota := [(lastUpdatedKey, "1970-01-01T00:01:50Z")] } := by
  have h := syncApp_grace_window_override
    { logic := .ok (some ()), restConfig := .ok (some ()),
      client := .ok (),
      getApp := .found [(lastUpdatedKey, "1970-01-01T00:01:00Z")] }
    100 110 60
    [(lastUpdatedKey, "1970-01-01T00:01:00Z")] "1970-01-01T00:01:00Z"
    rfl rfl rfl rfl (by decide) (by decide) (by decide)
  rw [h]
  decide

/-- Claim C2, counterexample: a target whose `last-updated` annotation is
the unparsable string "not-a-date".  Contrary to the claim, `SyncApp`
does not decide `needsUpdate = true` and rewrite the annotation: it
aborts the strategy call, returning the parse error, and issues no patch
request. -/
theorem syncApp_unparsable_counterexample :
    syncApp
      { logic := .ok (some ()), restConfig := .ok (some ()),
        client := .ok (),
        getApp := .found [(lastUpdatedKey, "not-a-date")] }
      0 100 =
      { result := .error (parseTimeErr "not-a-date"),
        patched := false,
        annota := [(lastUpdatedKey, "not-a-date")] } := by
  decide

/-- Claim C2, amended: for every rule whose resolved target resource
carries a non-empty last-updated annotation whose value fails RFC3339
parsing, `Sync` aborts the strategy call with the parse error — the
annotation is not rewritten and no patch request is issued. -/
theorem syncApp_unparsable_aborts (env : SyncAppEnv)
    (created now : Int) (anns : Annotations) (s : String)
    (hlogic : env.logic = .ok (some ()))
    (hrest : env.restConfig = .ok (some ()))
    (hclient : env.client = .ok ())
    (hget : env.getApp = .found anns)
    (hs : getAnn anns lastUpdatedKey = s)
    (hne : s ≠ "")
    (hparse : parseRFC3339 s = none) :
    syncApp env created now =
      { result := .error (parseTimeErr s),
        patched := false, annota := anns } := by
  rw [syncApp_eq_core env created now anns hlogic hrest hclient hget]
  unfold syncAppOnCR
  rw [hs]
  rw [if_neg (by simpa using hne)]
  rw [hparse]

/-- Witness for `syncApp_unparsable_aborts` at the annotation value
"31-12-2023 10:00". -/
theorem syncApp_unparsable_aborts_witness :
    syncApp
      { logic := .ok (some ()), restConfig := .ok (some ()),
        client := .ok (),
        getApp := .found [(lastUpdatedKey, "31-12-2023 10:00")] }
      7 9 =
      { result := .error (parseTimeErr "31-12-2023 10:00"),
        patched := false,
        annota := [(lastUpdatedKey, "31-12-2023 10:00")] } :=
  syncApp_unparsable_aborts _ 7 9
    [(lastUpdatedKey, "31-12-2023 10:00")] "31-12-2023 10:00"
    rfl rfl rfl rfl (by decide) (by decide) (by decide)

/-! ## The periodic batch (claim C3) -/

/-- Claim C3, counterexample: a store holding a single rule marked
`Removed`.  Contrary to the claim, that rule is included in the batch
the periodic loop hands to `SyncRules` — `FindAll` applies no filter on
the `Removed` flag. -/
theorem syncAllRulesBatch_includes_removed_counterexample :
    ({ ruleID := "r1", removed := true } : RuleM) ∈
      syncAllRulesBatch [{ ruleID := "r1", removed := true }] ∧
    ({ ruleID := "r1", removed := true } : RuleM).removed = true := by
  constructor
  · decide
  · rfl

/-- Claim C3, amended: every periodic reconciliation pass started by
`RunPeriodicSync` operates on the full set of currently-known rules,
including those marked `Removed` — `syncAllRules` queries the store with
an empty filter, and removal is handled downstream by the coordinator's
removal-sync logic. -/
theorem syncAllRulesBatch_eq_all_rules (db : List RuleM) :
    syncAllRulesBatch db = db := by
  unfold syncAllRulesBatch findAllForEngine findAllRules
  have h : ∀ r : RuleM, matchesFindOpts {} r = true := by
    intro r
    simp [matchesFindOpts]
  induction db with
  | nil => rfl
  | cons d ds ih =>
    rw [List.filter_cons, h d]
    simpa using ih

/-! ## The coordinator's removal-skip and lock-denied paths (C6, C8) -/

/-- Claim C6: for every rule marked `Removed` whose acquired lock
record's most recent recorded sync outcome has `Removed = true` and
`Successful = true`, the coordinator skips reconciliation entirely — the
engine's `Sync` is never invoked (so the already-gone target is not
patched), `syncRule` returns no error, and the deferred `SyncEnd`
records a successful removal outcome. -/
theorem syncRule_removal_skip (hasFilter : Bool)
    (allowedRes : Except String Bool) (startRes : StartOutcome)
    (syncRes : Except String (Option String)) (r : RuleM) (now : Int)
    (rs : RuleSyncInfoM) (ls : RuleSyncDataM)
    (hfilter : hasFilter = true → allowedRes = .ok true)
    (hstart : startRes = .acquired rs)
    (hrem : r.removed = true)
    (hls : rs.latestSync = some ls)
    (hlsrem : ls.removed = true)
    (hlsok : ls.successful = true) :
    syncRule hasFilter allowedRes startRes syncRes r now =
      { retErr := none, syncCalled := false,
        recorded := some { startTime := now, endTime := now,
                           successful := true, removed := true } } := by
  unfold syncRule
  rw [hstart]
  cases hasFilter with
  | false => simp [hls, hrem, hlsrem, hlsok]
  | true =>
    rw [hfilter rfl]
    simp [hls, hrem, hlsrem, hlsok]

/-- Witness for `syncRule_removal_skip`: a removed rule whose lock
history ends in a successful removal sync. -/
theorem syncRule_removal_skip_witness :
    syncRule false (.ok true) (.acquired
        { ruleID := "r1", engine := "acl-operator",
          syncs := [{ successful := true, removed := true }] })
      (.ok (some "should-not-run")) { ruleID := "r1", removed := true } 42 =
      { retErr := none, syncCalled := false,
        recorded := some { startTime := 42, endTime := 42,
                           successful := true, removed := true } } :=
  syncRule_removal_skip false (.ok true) _ _ _ 42 _
    { successful := true, removed := true }
    (by intro h; cases h) rfl rfl (by decide) rfl rfl

/-- Claim C8: for every rule and engine, when lock acquisition fails
with `ErrSyncStorageLocked`, `syncRule` returns nil: the engine's `Sync`
is not invoked, no sync outcome is persisted for the attempt, and the
per-engine failure counter is not incremented by `engineSync`. -/
theorem syncRule_lock_denied_skips (eng : EngineModel)
    (startRes : RuleM → StartOutcome) (r : RuleM) (now : Int)
    (hfilter : eng.hasFilter = true → eng.allowedRes r = .ok true)
    (hlock : startRes r = .locked) :
    syncRule eng.hasFilter (eng.allowedRes r) (startRes r) (eng.syncRes r)
        r now =
      { retErr := none, syncCalled := false, recorded := none } ∧
    engineSync eng startRes [r] now =
      (0, [{ retErr := none, syncCalled := false, recorded := none }]) := by
  have hone : syncRule eng.hasFilter (eng.allowedRes r) (startRes r)
      (eng.syncRes r) r now =
      { retErr := none, syncCalled := false, recorded := none } := by
    unfold syncRule
    rw [hlock]
    cases h : eng.hasFilter with
    | false => simp
    | true =>
      rw [hfilter h]
      simp
  refine ⟨hone, ?_⟩
  unfold engineSync
  rw [List.foldl_cons, List.foldl_nil]
  rw [hone]
  simp

/-- Witness for `syncRule_lock_denied_skips`: a filterless engine racing
an already-held lock. -/
theorem syncRule_lock_denied_skips_witness :
    syncRule false (Except.ok true) StartOutcome.locked
        (Except.ok (some "unused")) { ruleID := "r9" } 7 =
      { retErr := none, syncCalled := false, recorded := none } ∧
    engineSync
        { hasFilter := false, allowedRes := fun _ => .ok true,
          syncRes := fun _ => .ok (some "unused") }
        (fun _ => .locked) [{ ruleID := "r9" }] 7 =
      (0, [{ retErr := none, syncCalled := false, recorded := none }]) :=
  syncRule_lock_denied_skips
    { hasFilter := false, allowedRes := fun _ => .ok true,
      syncRes := fun _ => .ok (some "unused") }
    (fun _ => .locked) { ruleID := "r9" } 7
    (by intro h; cases h) rfl

/-! ## The resolution cache (claim C9) -/

/-- Once the cache holds an entry for key `k`, later calls never invoke
the resolver for `k` again. -/
lemma invocationsForKey_eq_zero_of_mem (rs : List RuleM) :
    ∀ (cache : LogicCacheM) (k : String),
      (cache.find? (fun p => p.1 == k)).isSome = true →
      invocationsForKey cache rs k = 0 := by
  induction rs with
  | nil => intro cache k _; rfl
  | cons r rest ih =>
    intro cache k hmem
    unfold invocationsForKey
    cases h : cache.find? (fun p => p.1 == cacheKey r.source) with
    | some p =>
      simp only [logicFromRule, h]
      simpa using ih cache k hmem
    | none =>
      simp only [logicFromRule, h]
      have hne : (cacheKey r.source == k) = false := by
        cases heq : cacheKey r.source == k with
        | false => rfl
        | true =>
          rw [show cacheKey r.source = k from by simpa using heq] at h
          rw [h] at hmem
          simp at hmem
      rw [hne]
      simp only [Bool.and_false, if_false]
      have hmem' : (((cacheKey r.source, logicFromRuleType r.source) ::
          cache).find? (fun p => p.1 == k)).isSome = true := by
        simp only [List.find?]
        rw [hne]
        exact hmem
      simpa using ih _ k hmem'

/-- Over any call sequence from any cache, the resolver runs at most
once for a given key. -/
lemma invocationsForKey_le_one (rs : List RuleM) :
    ∀ (cache : LogicCacheM) (k : String),
      invocationsForKey cache rs k ≤ 1 := by
  induction rs with
  | nil => intro cache k; simp [invocationsForKey]
  | cons r rest ih =>
    intro cache k
    unfold invocationsForKey
    cases h : cache.find? (fun p => p.1 == cacheKey r.source) with
    | some p =>
      simp only [logicFromRule, h]
      simpa using ih cache k
    | none =>
      simp only [logicFromRule, h]
      cases hk : cacheKey r.source == k with
      | false =>
        simp only [Bool.and_false, if_false]
        simpa using ih _ k
      | true =>
        simp only [Bool.and_true, if_true]
        have hz : invocationsForKey
            ((cacheKey r.source, logicFromRuleType r.source) :: cache)
            rest k = 0 := by
          apply invocationsForKey_eq_zero_of_mem
          simp only [List.find?]
          rw [hk]
          rfl
        simp [hz]

/-- Claim C9: within one reconciliation pass, over every sequence of
`LogicFromRule` calls threading the pass's shared cache (which starts
empty), the resolver `logicFromRuleType` runs at most once per distinct
descriptor cache key; moreover any resolution result — a resolved nil
included — is stored, and an immediately repeated call with the same
rule is a cache hit returning the stored value without re-resolving. -/
theorem logicCache_resolves_once (rs : List RuleM) (k : String)
    (cache : LogicCacheM) (r : RuleM) :
    invocationsForKey [] rs k ≤ 1 ∧
    (logicFromRule (logicFromRule cache r).cache r).resolverInvoked = false ∧
    (logicFromRule (logicFromRule cache r).cache r).logic =
      (logicFromRule cache r).logic := by
  refine ⟨invocationsForKey_le_one rs [] k, ?_, ?_⟩ <;>
  · cases h : cache.find? (fun p => p.1 == cacheKey r.source) with
    | some p => simp [logicFromRule, h]
    | none => simp [logicFromRule, h]

/-! ## `Save` stamps `Created` (claim C10) -/

/-- Stamping always overwrites `Created` with the save time. -/
lemma stampRule_created (now : Int) (i : String) (r : RuleM) :
    (stampRule now i r).created = now := by
  unfold stampRule
  cases h : r.ruleID == "" <;> simp

/-- Every rule of a stamped batch carries the save time. -/
lemma stampRules_created (now : Int) :
    ∀ (ids : List String) (rules : List RuleM),
      ∀ r ∈ stampRules now ids rules, r.created = now := by
  intro ids rules
  induction rules generalizing ids with
  | nil => intro r hr; simp [stampRules] at hr
  | cons d ds ih =>
    intro r hr
    cases ids with
    | nil =>
      simp only [stampRules] at hr
      rcases List.mem_cons.mp hr with h | h
      · rw [h]; exact stampRule_created now "" d
      · exact ih [] r h
    | cons i is =>
      simp only [stampRules] at hr
      rcases List.mem_cons.mp hr with h | h
      · rw [h]; exact stampRule_created now i d
      · exact ih is r h

/-- After an upsert replace, the store's entry for the saved rule's id is
exactly the saved rule. -/
lemma findRuleByID_replaceOneUpsert (x : RuleM) :
    ∀ db : List RuleM,
      findRuleByID (replaceOneUpsert db x) x.ruleID = some x := by
  intro db
  induction db with
  | nil => simp [replaceOneUpsert, findRuleByID, List.find?]
  | cons d ds ih =>
    unfold replaceOneUpsert
    cases h : d.ruleID == x.ruleID with
    | true =>
      simp only [if_pos rfl]
      simp [findRuleByID, List.find?]
    | false =>
      simp only [Bool.false_eq_true, if_false]
      unfold findRuleByID
      simp only [List.find?, h]
      exact ih

/-- Claim C10: every call to `Save` overwrites each passed rule's
`Created` field with the save time — including under upsert when the
rule already exists, so re-saving an existing rule resets its stored
`Created` to now (re-arming the reconciler's grace-window refresh). -/
theorem save_resets_created (db rules : List RuleM) (now : Int)
    (ids : List String) (r : RuleM) (i : String) :
    (∀ s ∈ stampRules now ids rules, s.created = now) ∧
    saveRules db [r] true now [i] =
      .ok (replaceOneUpsert db (stampRule now i r), [stampRule now i r]) ∧
    (stampRule now i r).created = now ∧
    findRuleByID (replaceOneUpsert db (stampRule now i r))
      (stampRule now i r).ruleID = some (stampRule now i r) := by
  refine ⟨stampRules_created now ids rules, rfl, stampRule_created now i r,
    findRuleByID_replaceOneUpsert (stampRule now i r) db⟩

/-- Witness for `save_resets_created`: re-saving an existing rule with
upsert; the stored copy's `Created` becomes the new save time. -/
theorem save_resets_created_witness :
    ({ ruleID := "r1", created := 99 } : RuleM).created = 99 ∧
    saveRules [{ ruleID := "r1", created := 5 }]
        [{ ruleID := "r1", created := 5 }] true 99 ["fresh"] =
      .ok ([{ ruleID := "r1", created := 99 }],
           [{ ruleID := "r1", created := 99 }]) ∧
    findRuleByID [{ ruleID := "r1", created := 99 }] "r1" =
      some { ruleID := "r1", created := 99 } := by
  have h := save_resets_created [{ ruleID := "r1", created := 5 }]
    [{ ruleID := "r1", created := 5 }] 99 ["fresh"]
    { ruleID := "r1", created := 5 } "fresh"
  refine ⟨h.1 { ruleID := "r1", created := 99 } (by decide), ?_, ?_⟩
  · have := h.2.1
    rw [this]
    decide
  · have := h.2.2.2
    revert this
    decide

/-! ## Lock mutual exclusion (claim C1) -/

/-- The document `findRec` returns carries the key it was found by. -/
lemma findRec_some_key (st : SyncStore) (rid eng : String)
    (doc : RuleSyncInfoM) (h : findRec st rid eng = some doc) :
    (doc.ruleID == rid && doc.engine == eng) = true := by
  unfold findRec at h
  have h2 := List.find?_some h
  simpa using h2

/-- After updating the document at a key with a record that itself
carries that key, looking the key up returns the new record. -/
lemma findRec_updateRec (rid eng : String) (u : RuleSyncInfoM)
    (hu : (u.ruleID == rid && u.engine == eng) = true) :
    ∀ st : SyncStore, (findRec st rid eng).isSome = true →
      findRec (updateRec st rid eng u) rid eng = some u := by
  intro st
  induction st with
  | nil => intro h; simp [findRec] at h
  | cons d ds ih =>
    intro h
    unfold findRec at h
    unfold findRec updateRec
    rw [List.map_cons]
    cases hd : (d.ruleID == rid && d.engine == eng) with
    | true => simp [hd, hu]
    | false =>
      simp only [hd, Bool.false_eq_true, if_false]
      rw [List.find?_cons_of_neg _ (by simp [hd])]
      rw [List.find?_cons_of_neg _ (by simp [hd])] at h
      exact ih h

/-- Inserting a record for an absent key makes it the key's document. -/
lemma findRec_append_insert (rid eng : String) (u : RuleSyncInfoM)
    (hu : (u.ruleID == rid && u.engine == eng) = true) :
    ∀ st : SyncStore, findRec st rid eng = none →
      findRec (st ++ [u]) rid eng = some u := by
  intro st h
  unfold findRec at h ⊢
  rw [List.find?_append, h]
  simp [hu]

/-- When the key is free — no document, or a document the eligibility
query matches — `StartSync` acquires the lock: it returns a record that
is `Running = true` and freshly pinged, and the store maps the key to
that record. -/
lemma startSync_acquire (st : SyncStore) (after : Int) (rid eng : String)
    (now lockExp : Int) (i : String)
    (hfree : ∀ doc, findRec st rid eng = some doc →
      startSyncEligible doc after (if after > lockExp then after else lockExp)
        now false = true) :
    ∃ u, (startSync st after rid eng false now lockExp i).res = .ok u ∧
      u.running = true ∧ u.pingTime = now ∧
      findRec (startSync st after rid eng false now lockExp i).store rid eng =
        some u := by
  cases h : findRec st rid eng with
  | none =>
    refine ⟨{ syncID := i, ruleID := rid, engine := eng, startTime := now,
              pingTime := now, running := true }, ?_, rfl, rfl, ?_⟩
    · simp [startSync, h]
    · simp only [startSync, h]
      exact findRec_append_insert rid eng _ (by simp) st h
  | some doc =>
    have he := hfree doc h
    refine ⟨{ doc with startTime := now, pingTime := now, running := true },
      ?_, rfl, rfl, ?_⟩
    · simp [startSync, h, he]
    · simp only [startSync, h, he, if_true]
      have hd := findRec_some_key st rid eng doc h
      exact findRec_updateRec rid eng _ (by exact hd) st (by simp [h])

/-- A key whose document is running and was pinged at the current
instant denies `StartSync` (without force), leaving the store
untouched. -/
lemma startSync_locked_of_held (st : SyncStore) (after : Int)
    (rid eng : String) (now lockExp : Int) (i : String)
    (doc : RuleSyncInfoM)
    (hfind : findRec st rid eng = some doc) (hrun : doc.running = true)
    (hping : doc.pingTime = now) (hexp : 0 ≤ lockExp) :
    startSync st after rid eng false now lockExp i =
      { store := st, next := after, res := .error () } := by
  have helig : startSyncEligible doc after
      (if after > lockExp then after else lockExp) now false = false := by
    unfold startSyncEligible
    rw [hrun, hping]
    have hlt : ¬ now < now - (if after > lockExp then after else lockExp) := by
      split <;> omega
    simp [hlt]
  simp [startSync, hfind, helig, hrun]

/-- Once the lock is held by a freshly pinged running record, every
further serialized `StartSync` attempt is denied and the store never
changes. -/
lemma raceStartSync_all_locked (after : Int) (rid eng : String)
    (now lockExp : Int) (doc : RuleSyncInfoM)
    (hrun : doc.running = true) (hping : doc.pingTime = now)
    (hexp : 0 ≤ lockExp) :
    ∀ (ids : List String) (st : SyncStore),
      findRec st rid eng = some doc →
      raceStartSync st after rid eng now lockExp ids =
        (st, 0, ids.length) := by
  intro ids
  induction ids with
  | nil => intro st _; rfl
  | cons i rest ih =>
    intro st h
    have hlocked := startSync_locked_of_held st after rid eng now lockExp i
      doc h hrun hping hexp
    unfold raceStartSync
    simp only [hlocked, ih st h]
    simp

/-- Claim C1: the sync-lock store keeps at most one running lock per
`(ruleID, engine)` key: when N callers race `StartSync` for the same key
while no unexpired lock is held (the key has no document, or its
document matches the eligibility query), exactly one call acquires the
lock and every other call observes `ErrSyncStorageLocked`. -/
theorem startSync_mutual_exclusion (st : SyncStore) (after : Int)
    (rid eng : String) (now lockExp : Int) (ids : List String)
    (hexp : 0 ≤ lockExp)
    (hfree : ∀ doc, findRec st rid eng = some doc →
      startSyncEligible doc after (if after > lockExp then after else lockExp)
        now false = true)
    (hne : ids ≠ []) :
    (raceStartSync st after rid eng now lockExp ids).2.1 = 1 ∧
    (raceStartSync st after rid eng now lockExp ids).2.2 = ids.length - 1 := by
  cases ids with
  | nil => cases hne rfl
  | cons i rest =>
    obtain ⟨u, hres, hrun, hping, hfindu⟩ :=
      startSync_acquire st after rid eng now lockExp i hfree
    have hrest := raceStartSync_all_locked after rid eng now lockExp u hrun
      hping hexp rest _ hfindu
    unfold raceStartSync
    simp only [hrest, hres]
    simp

/-! ## The bounded sync history (claim C7) -/

/-- The capped history never exceeds `n` entries. -/
lemma keepLast_length_le (n : Nat) (l : List RuleSyncDataM) :
    (keepLast n l).length ≤ n := by
  unfold keepLast
  rw [List.length_drop]
  omega

/-- Capping a history already within the bound is a no-op. -/
lemma keepLast_of_le (n : Nat) (l : List RuleSyncDataM) (h : l.length ≤ n) :
    keepLast n l = l := by
  unfold keepLast
  rw [Nat.sub_eq_zero_of_le h, List.drop_zero]

/-- Capping absorbs an earlier cap of the same bound. -/
lemma keepLast_append (n : Nat) (l l2 : List RuleSyncDataM) :
    keepLast n (keepLast n l ++ l2) = keepLast n (l ++ l2) := by
  rcases le_or_lt l.length n with h | h
  · rw [keepLast_of_le n l h]
  · unfold keepLast
    simp only [List.length_append, List.length_drop]
    rw [List.drop_append_eq_append_drop, List.drop_append_eq_append_drop,
      List.drop_drop]
    congr 1
    · congr 1
      omega
    · congr 1
      simp only [List.length_drop]
      omega

/-- Members of an updated store come from the old store or are the
replacement record. -/
lemma mem_updateRec (st : SyncStore) (rid eng : String)
    (u x : RuleSyncInfoM) (hx : x ∈ updateRec st rid eng u) :
    x ∈ st ∨ x = u := by
  unfold updateRec at hx
  obtain ⟨r, hr, hrx⟩ := List.mem_map.mp hx
  by_cases h : (r.ruleID == rid && r.engine == eng) = true
  · rw [if_pos h] at hrx
    exact .inr hrx.symm
  · rw [if_neg h] at hrx
    exact .inl (hrx ▸ hr)

/-- The three possible store shapes after a `StartSync`. -/
lemma startSync_store_cases (st : SyncStore) (after : Int)
    (rid eng : String) (force : Bool) (now lockExp : Int) (i : String) :
    (startSync st after rid eng force now lockExp i).store = st ∨
    (∃ doc, findRec st rid eng = some doc ∧
      (startSync st after rid eng force now lockExp i).store =
        updateRec st rid eng
          { doc with startTime := now, pingTime := now, running := true }) ∨
    (startSync st after rid eng force now lockExp i).store =
      st ++ [{ syncID := i, ruleID := rid, engine := eng, startTime := now,
               pingTime := now, running := true }] := by
  cases h : findRec st rid eng with
  | none =>
    refine .inr (.inr ?_)
    simp [startSync, h]
  | some doc =>
    cases he : startSyncEligible doc after
        (if after > lockExp then after else lockExp) now force with
    | true =>
      refine .inr (.inl ⟨doc, rfl, ?_⟩)
      simp [startSync, h, he]
    | false =>
      refine .inl ?_
      simp [startSync, h, he]

/-- The two possible store shapes after an `EndSync`. -/
lemma endSync_store_cases (st : SyncStore) (ruleSync : RuleSyncInfoM)
    (syncData : RuleSyncDataM) (now : Int) :
    endSync st ruleSync syncData now = st ∨
    ∃ doc, findRec st ruleSync.ruleID ruleSync.engine = some doc ∧
      endSync st ruleSync syncData now =
        updateRec st ruleSync.ruleID ruleSync.engine
          { doc with running := false, pingTime := now, endTime := now,
                     syncs := keepLast 10 (doc.syncs ++ [syncData]) } := by
  cases h : findRec st ruleSync.ruleID ruleSync.engine with
  | none =>
    refine .inl ?_
    simp [endSync, h]
  | some doc =>
    refine .inr ⟨doc, rfl, ?_⟩
    simp [endSync, h]

/-- A found document is a member of the store. -/
lemma mem_of_findRec (st : SyncStore) (rid eng : String)
    (doc : RuleSyncInfoM) (h : findRec st rid eng = some doc) : doc ∈ st := by
  unfold findRec at h
  exact List.mem_of_find?_eq_some h

/-- One store operation preserves the history bound. -/
lemma applySyncOp_syncs_le (st : SyncStore) (op : SyncOp)
    (hst : ∀ doc ∈ st, doc.syncs.length ≤ 10) :
    ∀ doc ∈ applySyncOp st op, doc.syncs.length ≤ 10 := by
  intro x hx
  cases op with
  | start after rid eng force now lockExp freshID =>
    simp only [applySyncOp] at hx
    rcases startSync_store_cases st after rid eng force now lockExp freshID
      with hc | ⟨doc, hfind, hc⟩ | hc
    · exact hst x (hc ▸ hx)
    · rw [hc] at hx
      rcases mem_updateRec _ _ _ _ _ hx with hmem | hequ
      · exact hst x hmem
      · rw [hequ]
        exact hst doc (mem_of_findRec st rid eng doc hfind)
    · rw [hc] at hx
      rcases List.mem_append.mp hx with hmem | hmem
      · exact hst x hmem
      · rw [List.mem_singleton.mp hmem]
        simp
  | finish ruleSync syncData now =>
    simp only [applySyncOp] at hx
    rcases endSync_store_cases st ruleSync syncData now
      with hc | ⟨doc, hfind, hc⟩
    · exact hst x (hc ▸ hx)
    · rw [hc] at hx
      rcases mem_updateRec _ _ _ _ _ hx with hmem | hequ
      · exact hst x hmem
      · rw [hequ]
        exact keepLast_length_le 10 _

/-- Any operation sequence preserves the history bound. -/
lemma runSyncOps_syncs_le (ops : List SyncOp) :
    ∀ st : SyncStore, (∀ doc ∈ st, doc.syncs.length ≤ 10) →
      ∀ doc ∈ runSyncOps st ops, doc.syncs.length ≤ 10 := by
  induction ops with
  | nil => intro st hst; exact hst
  | cons op rest ih =>
    intro st hst
    simp only [runSyncOps, List.foldl_cons]
    exact ih _ (applySyncOp_syncs_le st op hst)

/-- One start/end cycle against a key's idle, freshly pinged document:
the lock is acquired and released, and the outcome is appended under the
cap. -/
lemma syncCycle_single (after : Int) (rid eng : String) (now lockExp : Int)
    (fid : String) (d : RuleSyncDataM) (doc : RuleSyncInfoM)
    (hrid : doc.ruleID = rid) (heng : doc.engine = eng)
    (hrun : doc.running = false) (hping : doc.pingTime = now)
    (haft : after < 0) :
    syncCycle [doc] after rid eng now lockExp fid d =
      [{ syncID := doc.syncID, ruleID := rid, engine := eng,
         startTime := now, endTime := now, pingTime := now, running := false,
         syncs := keepLast 10 (doc.syncs ++ [d]) }] := by
  have hpred : (doc.ruleID == rid && doc.engine == eng) = true := by
    simp [hrid, heng]
  have hfind : findRec [doc] rid eng = some doc := by
    unfold findRec
    exact List.find?_cons_of_pos _ hpred
  have helig : startSyncEligible doc after
      (if after > lockExp then after else lockExp) now false = true := by
    unfold startSyncEligible
    rw [hrun, hping]
    have hlt : now < now - after := by omega
    simp [hlt]
  unfold syncCycle
  simp only [startSync, hfind, helig, if_true]
  unfold endSync findRec updateRec
  simp [hrid, heng]

/-- The first cycle against an empty store creates the key's document
with a one-entry history. -/
lemma syncCycle_empty (after : Int) (rid eng : String) (now lockExp : Int)
    (fid : String) (d : RuleSyncDataM) :
    syncCycle [] after rid eng now lockExp fid d =
      [{ syncID := fid, ruleID := rid, engine := eng, startTime := now,
         endTime := now, pingTime := now, running := false,
         syncs := [d] }] := by
  unfold syncCycle
  simp only [startSync]
  have hnone : findRec [] rid eng = none := rfl
  rw [hnone]
  unfold endSync findRec updateRec
  simp [keepLast]

/-- Sequential cycles against a key roll the history up under the cap. -/
lemma runCycles_single (after : Int) (rid eng : String) (now lockExp : Int)
    (fid : String) (haft : after < 0) :
    ∀ (ds : List RuleSyncDataM) (doc : RuleSyncInfoM),
      doc.ruleID = rid → doc.engine = eng → doc.running = false →
      doc.pingTime = now → doc.syncs.length ≤ 10 →
      ∃ docF, runCycles [doc] after rid eng now lockExp fid ds = [docF] ∧
        docF.syncs = keepLast 10 (doc.syncs ++ ds) := by
  intro ds
  induction ds with
  | nil =>
    intro doc hrid heng hrun hping hlen
    refine ⟨doc, rfl, ?_⟩
    rw [List.append_nil, keepLast_of_le 10 _ hlen]
  | cons d rest ih =>
    intro doc hrid heng hrun hping hlen
    have hstep := syncCycle_single after rid eng now lockExp fid d doc hrid
      heng hrun hping haft
    obtain ⟨docF, hrunF, hsyncsF⟩ := ih
      { syncID := doc.syncID, ruleID := rid, engine := eng,
        startTime := now, endTime := now, pingTime := now, running := false,
        syncs := keepLast 10 (doc.syncs ++ [d]) }
      rfl rfl rfl rfl (keepLast_length_le 10 _)
    refine ⟨docF, ?_, ?_⟩
    · simp only [runCycles, List.foldl_cons]
      rw [hstep]
      exact hrunF
    · rw [hsyncsF]
      show keepLast 10 ((keepLast 10 (doc.syncs ++ [d])) ++ rest) = _
      rw [keepLast_append, List.append_assoc, List.singleton_append]

/-- Claim C7: the stored sync-outcome history never exceeds 10 entries
after any sequence of `StartSync`/`EndSync` operations from genesis, and
12 sequential start/end cycles for one key leave exactly the outcomes of
the last 10 cycles, in order, oldest first. -/
theorem syncHistory_capped_at_ten (ops : List SyncOp)
    (ds : List RuleSyncDataM) (after : Int) (rid eng : String)
    (now lockExp : Int) (fid : String) :
    (∀ doc ∈ runSyncOps [] ops, doc.syncs.length ≤ 10) ∧
    (after < 0 → ds.length = 12 →
      ∃ docF, runCycles [] after rid eng now lockExp fid ds = [docF] ∧
        docF.syncs = ds.drop 2) := by
  constructor
  · exact runSyncOps_syncs_le ops [] (by intro doc h; cases h)
  · intro haft hlen
    cases ds with
    | nil => cases hlen
    | cons d rest =>
      obtain ⟨docF, hrunF, hsyncsF⟩ := runCycles_single after rid eng now
        lockExp fid haft rest
        { syncID := fid, ruleID := rid, engine := eng, startTime := now,
          endTime := now, pingTime := now, running := false, syncs := [d] }
        rfl rfl rfl rfl (by simp)
      refine ⟨docF, ?_, ?_⟩
      · simp only [runCycles, List.foldl_cons]
        rw [syncCycle_empty]
        exact hrunF
      · rw [hsyncsF]
        show keepLast 10 ([d] ++ rest) = _
        rw [List.singleton_append]
        unfold keepLast
        have h2 : (d :: rest).length - 10 = 2 := by
          simp at hlen
          simp [hlen]
        rw [h2]

/-- Witness for `syncHistory_capped_at_ten`: one lock acquisition from
genesis (bounded history), and 12 concrete cycles whose final history is
the last 10 outcomes. -/
theorem syncHistory_capped_at_ten_witness :
    (∀ doc ∈ runSyncOps []
        [SyncOp.start (-3600) "r1" "e1" false 100 300 "id"],
      doc.syncs.length ≤ 10) ∧
    ((-3600 : Int) < 0 →
      ([{ syncResult := "s0" }, { syncResult := "s1" },
        { syncResult := "s2" }, { syncResult := "s3" },
        { syncResult := "s4" }, { syncResult := "s5" },
        { syncResult := "s6" }, { syncResult := "s7" },
        { syncResult := "s8" }, { syncResult := "s9" },
        { syncResult := "s10" }, { syncResult := "s11" }] :
        List RuleSyncDataM).length = 12 →
      ∃ docF, runCycles [] (-3600) "r1" "e1" 100 300 "id"
          [{ syncResult := "s0" }, { syncResult := "s1" },
           { syncResult := "s2" }, { syncResult := "s3" },
           { syncResult := "s4" }, { syncResult := "s5" },
           { syncResult := "s6" }, { syncResult := "s7" },
           { syncResult := "s8" }, { syncResult := "s9" },
           { syncResult := "s10" }, { syncResult := "s11" }] = [docF] ∧
        docF.syncs =
          ([{ syncResult := "s0" }, { syncResult := "s1" },
            { syncResult := "s2" }, { syncResult := "s3" },
            { syncResult := "s4" }, { syncResult := "s5" },
            { syncResult := "s6" }, { syncResult := "s7" },
            { syncResult := "s8" }, { syncResult := "s9" },
            { syncResult := "s10" }, { syncResult := "s11" }] :
            List RuleSyncDataM).drop 2) :=
  syncHistory_capped_at_ten
    [SyncOp.start (-3600) "r1" "e1" false 100 300 "id"]
    [{ syncResult := "s0" }, { syncResult := "s1" },
     { syncResult := "s2" }, { syncResult := "s3" },
     { syncResult := "s4" }, { syncResult := "s5" },
     { syncResult := "s6" }, { syncResult := "s7" },
     { syncResult := "s8" }, { syncResult := "s9" },
     { syncResult := "s10" }, { syncResult := "s11" }]
    (-3600) "r1" "e1" 100 300 "id"

/-- Witness for `startSync_mutual_exclusion`: three callers race an
empty store; one wins, two are locked out. -/
theorem startSync_mutual_exclusion_witness :
    (raceStartSync [] (-3600) "r1" "e1" 100 300 ["a", "b", "c"]).2.1 = 1 ∧
    (raceStartSync [] (-3600) "r1" "e1" 100 300 ["a", "b", "c"]).2.2 =
      ["a", "b", "c"].length - 1 :=
  startSync_mutual_exclusion [] (-3600) "r1" "e1" 100 300 ["a", "b", "c"]
    (by decide) (by intro doc h; cases h) (by decide)

end AclApi
